import Mathlib

/-
Verification development for the multi-task-conveyor repository.

The engine under study is class MultiTask in src/unnamed/part_000 (the
namespaced header included by the example programs): a fixed pool of worker
threads consumes a shared bounded deque of tasks; each job owns an atomic
running-task counter (m_running_tasks), an all-tasks-pushed flag and a done
flag; a detached driver thread per job activation runs the production step,
signals all-pushed, waits for the counter to reach zero, runs the completion
hook process_after_done and finally sets the done flag.

The older variant src/MultiThreadTask.h tracks completion by scanning the
queue instead of a counter; its check is embedded here as well
(check_job_is_done_scan) for the comparison claims.

States are embedded explicitly; the concurrent execution is a small-step
transition relation (Step) whose constructors are the atomic actions of the
driver and worker threads.  API entry points that a client thread calls
(push_job, pop_job, restart_job, terminate, ...) are functions on states.
-/

set_option maxHeartbeats 1000000

namespace MultiTaskConveyor

/-- Phase of a job's driver thread, following MultiTask::process_job in
src/unnamed/part_000: the driver runs process() (producing, carrying the
number of task pushes the client production step still has to issue), then
set_all_tasks_pushed (awaiting), then waits for the running-task counter to
hit zero and runs process_after_done (completing), and finally sets the done
flag (finished).  idle is a constructed job object whose driver has not been
started. -/
inductive Phase where
  | idle : Phase
  | producing : Nat → Phase
  | awaiting : Phase
  | completing : Phase
  | finished : Phase
deriving DecidableEq, Repr

/-- State of one Job object (class Job, src/unnamed/part_000) plus ghost
instrumentation.  counter is m_running_tasks, allPushed is
m_is_all_task_pushed, done is m_is_done.  plan is the client-defined number
of tasks its process() pushes per activation.  inFlight counts this job's
tasks that a worker has popped but not yet finished.  hookRuns, pushedA and
completedA are ghost event counters for the current activation: invocations
of process_after_done, tasks pushed, and task executions completed. -/
structure JobState where
  plan : Nat
  counter : Nat
  inFlight : Nat
  allPushed : Bool
  done : Bool
  hookRuns : Nat
  pushedA : Nat
  completedA : Nat
  phase : Phase
deriving DecidableEq, Repr

/-- State of the engine (class MultiTask, src/unnamed/part_000).  queue is
m_tasks_queue as the list of owning job handles of the queued tasks (0 models
the null terminator pointer pushed by terminate, and the null JOBID);  jobs
is the heap of live Job objects keyed by their address (a positive Nat
handle);  registry is the key set of m_jobs_map;  workers is the number of
live worker threads in m_tasks;  joined is a ghost counter of join() calls
performed on worker threads. -/
structure EState where
  maxTasks : Nat
  workers : Nat
  queue : List Nat
  jobs : List (Nat × JobState)
  registry : List Nat
  joined : Nat
deriving DecidableEq, Repr

/-- Lookup of a job object by handle in the heap of live Job objects. -/
def findJob (j : Nat) : List (Nat × JobState) → Option JobState
  | [] => none
  | p :: t => if p.1 = j then some p.2 else findJob j t

/-- Pointwise update of the job object with handle j. -/
def updJob (j : Nat) (f : JobState → JobState) : List (Nat × JobState) → List (Nat × JobState)
  | [] => []
  | p :: t => (if p.1 = j then (p.1, f p.2) else p) :: updJob j f t

/-- Conversion of an unsigned 32-bit value to a signed 32-bit int, as
performed by the initializer of task_threads_count in MultiTask::init. -/
def toInt32 (n : Nat) : Int :=
  if n % 2 ^ 32 < 2 ^ 31 then ((n % 2 ^ 32 : Nat) : Int)
  else ((n % 2 ^ 32 : Nat) : Int) - 2 ^ 32

/-- Worker-thread count computed by MultiTask::init (src/unnamed/part_000
lines 105-117): a zero task_threads argument selects
hardware_concurrency() - 1, computed in unsigned arithmetic and then
converted to int; a zero count is then bumped to one.  hc is the value
returned by thread::hardware_concurrency(), which the standard allows to
be 0. -/
def task_threads_count (task_threads hc : Nat) : Int :=
  let c : Int := if task_threads = 0 then toInt32 (hc + (2 ^ 32 - 1)) else toInt32 task_threads
  if c = 0 then c + 1 else c

/-- Engine state right after the MultiTask constructor ran init:
task_threads_count worker threads are spawned by the for loop (a negative
count spawns none), and the queue and the job map are empty. -/
def initState (task_threads max_tasks hc : Nat) : EState :=
  { maxTasks := max_tasks
    workers := (task_threads_count task_threads hc).toNat
    queue := []
    jobs := []
    registry := []
    joined := 0 }

/-- Client-side construction of a Job object (operator new inside
make_unique): the object starts with cleared flags and a zero counter (Job
constructor, src/unnamed/part_000 line 21); plan is the client-defined
number of tasks its process() will push per activation. -/
def allocJob (s : EState) (j : Nat) (plan : Nat) : EState :=
  { s with jobs := s.jobs ++ [(j,
      { plan := plan, counter := 0, inFlight := 0, allPushed := false,
        done := false, hookRuns := 0, pushedA := 0, completedA := 0,
        phase := Phase.idle })] }

/-- Driver-thread start (thread(&MultiTask::process_job, this, job_ptr),
detached): the new thread will run the job's production step, which pushes
plan tasks. -/
def startDriver (js : JobState) : JobState :=
  { js with phase := Phase.producing js.plan }

/-- MultiTask::push_job (src/unnamed/part_000 lines 162-180): try_emplace
into m_jobs_map keyed by the job's address.  On failure (handle already
present) the function returns job_ptr with no other effect: the map, the job
object and the caller's ownership are untouched and no driver thread starts.
On success the job is registered and a detached driver thread is started.
The returned Nat models the returned raw pointer.  The caller owns the
passed object, so the handle is assumed to be a live job. -/
def push_job (s : EState) (j : Nat) : Nat × EState :=
  if s.registry.contains j then (j, s)
  else (j, { s with registry := j :: s.registry, jobs := updJob j startDriver s.jobs })

/-- MultiTask::pop_job (src/unnamed/part_000 lines 188-197): extract the
node from m_jobs_map.  An absent key returns an empty unique_ptr and leaves
the map unchanged; a present key is removed from the registry and ownership
of the job object is handed back (the object itself stays alive). -/
def pop_job (s : EState) (j : Nat) : Option Nat × EState :=
  if s.registry.contains j then (some j, { s with registry := s.registry.erase j })
  else (none, s)

/-- Job::reset (src/unnamed/part_000 lines 64-68): clears the two atomic
flags.  The running-task counter m_running_tasks is NOT written by reset.
The ghost per-activation counters are restarted here because a new
activation begins. -/
def resetJob (js : JobState) : JobState :=
  { js with allPushed := false, done := false, hookRuns := 0, pushedA := 0,
            completedA := 0 }

/-- Effect of restart_job on a live job object: jobid->reset() followed by
the start of a new detached driver thread. -/
def restartApply (s : EState) (j : Nat) : EState :=
  { s with jobs := updJob j (fun js => startDriver (resetJob js)) s.jobs }

/-- MultiTask::restart_job (src/unnamed/part_000 lines 199-208): a null
handle returns immediately with no effect; any other handle is dereferenced
(jobid->reset()) and a new driver thread is started.  A non-null handle that
is not a live Job object is a dangling-pointer dereference, undefined in the
source and left outside the model (none). -/
def restart_job (s : EState) (j : Nat) : Option EState :=
  if j = 0 then some s
  else (findJob j s.jobs).map (fun _ => restartApply s j)

/-- MultiTask::check_job_is_done (src/unnamed/part_000 lines 210-216): a
null handle yields true; any other handle is dereferenced and the result is
jobid->get_task_count() == 0.  A dangling handle is undefined (none). -/
def check_job_is_done (s : EState) (j : Nat) : Option Bool :=
  if j = 0 then some true else (findJob j s.jobs).map (fun js => js.counter == 0)

/-- MultiTask::wait_job_done (src/unnamed/part_000 lines 218-224) returns
immediately on a null handle and otherwise blocks on the job's done flag
(jobid->wait_until_done()).  This function says whether the call can return
in state s, i.e. whether the flag is set; a dangling handle is undefined
(none). -/
def wait_returns_now (s : EState) (j : Nat) : Option Bool :=
  if j = 0 then some true else (findJob j s.jobs).map (fun js => js.done)

/-- MultiTask::is_job_tasks_queue_empty from the src/MultiThreadTask.h
variant (lines 278-281): none_of over the task queue, comparing each queued
task's owning handle with jobid. -/
def is_job_tasks_queue_empty (s : EState) (j : Nat) : Bool :=
  s.queue.all (fun e => e != j)

/-- MultiTask::check_job_is_done from the src/MultiThreadTask.h variant
(lines 199-207): a null handle yields true, otherwise the queue scan. -/
def check_job_is_done_scan (s : EState) (j : Nat) : Bool :=
  if j = 0 then true else is_job_tasks_queue_empty s j

/-- Blocking condition of MultiTask::push_task (src/unnamed/part_000 lines
142-145): the producer blocks exactly when m_max_tasks is nonzero and the
queue currently holds m_max_tasks tasks, and it resumes once the queue size
has dropped below m_max_tasks. -/
def push_would_block (s : EState) : Bool :=
  (s.maxTasks != 0) && (s.queue.length == s.maxTasks)

/-- Effect on one job of terminate joining a worker that is mid-execution:
the worker finishes its current task, calling dec_task_count on the owning
job, before re-taking the lock, observing the terminator and exiting
(MultiTask::process_task, src/unnamed/part_000 lines 226-250). -/
def finish_in_flight (js : JobState) : JobState :=
  { js with counter := js.counter - js.inFlight,
            completedA := js.completedA + js.inFlight,
            inFlight := 0 }

/-- MultiTask::terminate (src/unnamed/part_000 lines 119-136): clears the
task queue, discarding every pending task WITHOUT decrementing its owning
job's counter, pushes the null terminator, wakes and joins every thread of
m_tasks, then clears m_tasks and the queue.  Tasks already popped by a
worker are finished (with their counter decrement) before that worker
observes the terminator, so the joins complete. -/
def terminate (s : EState) : EState :=
  { s with queue := []
           jobs := s.jobs.map (fun p => (p.1, finish_in_flight p.2))
           joined := s.joined + s.workers
           workers := 0 }

/-- Total number of tasks currently being executed by workers. -/
def totalInFlight (l : List (Nat × JobState)) : Nat :=
  (l.map (fun p => p.2.inFlight)).sum

/-- Atomic actions of the running system (src/unnamed/part_000): the driver
threads (push of one task by the production step with its inc_task_count,
the all-pushed signal, the completion hook once the counter is zero, the
done flag) and the worker threads (pop of the front task, completion of a
task with dec_task_count).  push carries the capacity guard of push_task:
with a nonzero m_max_tasks the push happens only when the queue is below
capacity (a producer at capacity stays blocked in the m_task_done wait). -/
inductive Step : EState → EState → Prop where
  | push (s : EState) (j rem : Nat) (js : JobState) :
      findJob j s.jobs = some js → js.phase = Phase.producing (rem + 1) →
      (s.maxTasks = 0 ∨ s.queue.length < s.maxTasks) →
      Step s { s with queue := s.queue ++ [j],
                      jobs := updJob j (fun x =>
                        { x with counter := x.counter + 1, pushedA := x.pushedA + 1,
                                 phase := Phase.producing rem }) s.jobs }
  | endProduce (s : EState) (j : Nat) (js : JobState) :
      findJob j s.jobs = some js → js.phase = Phase.producing 0 →
      Step s { s with jobs := updJob j (fun x =>
                        { x with allPushed := true, phase := Phase.awaiting }) s.jobs }
  | pop (s : EState) (j : Nat) (rest : List Nat) :
      s.queue = j :: rest → j ≠ 0 → totalInFlight s.jobs < s.workers →
      Step s { s with queue := rest,
                      jobs := updJob j (fun x =>
                        { x with inFlight := x.inFlight + 1 }) s.jobs }
  | finish (s : EState) (j : Nat) (js : JobState) :
      findJob j s.jobs = some js → 0 < js.inFlight →
      Step s { s with jobs := updJob j (fun x =>
                        { x with inFlight := x.inFlight - 1, counter := x.counter - 1,
                                 completedA := x.completedA + 1 }) s.jobs }
  | runHook (s : EState) (j : Nat) (js : JobState) :
      findJob j s.jobs = some js → js.phase = Phase.awaiting → js.counter = 0 →
      Step s { s with jobs := updJob j (fun x =>
                        { x with hookRuns := x.hookRuns + 1, phase := Phase.completing }) s.jobs }
  | setDone (s : EState) (j : Nat) (js : JobState) :
      findJob j s.jobs = some js → js.phase = Phase.completing →
      Step s { s with jobs := updJob j (fun x =>
                        { x with done := true, phase := Phase.finished }) s.jobs }

/-- Reachable engine states: boot via the constructor, interleaved atomic
thread steps, and the API calls of the example programs.  The pushJ
constructor registers a freshly constructed job; the restart constructor
carries the documented precondition of spec section 4.4 that restart is
only well-defined once the prior activation is done. -/
inductive Reachable : EState → Prop where
  | boot (tt mt hc : Nat) : Reachable (initState tt mt hc)
  | alloc (s : EState) (j plan : Nat) :
      Reachable s → j ≠ 0 → findJob j s.jobs = none → Reachable (allocJob s j plan)
  | step (s t : EState) : Reachable s → Step s t → Reachable t
  | pushJ (s : EState) (j : Nat) (js : JobState) :
      Reachable s → findJob j s.jobs = some js → js.phase = Phase.idle →
      Reachable (push_job s j).2
  | restart (s : EState) (j : Nat) (js : JobState) :
      Reachable s → findJob j s.jobs = some js → js.done = true →
      Reachable (restartApply s j)
  | popJ (s : EState) (j : Nat) : Reachable s → Reachable (pop_job s j).2

/-- Relation imposed on a job's fields by its driver's progress, expressed
per phase. -/
def phaseCond : Phase → JobState → Prop
  | Phase.idle, js =>
      js.counter = 0 ∧ js.inFlight = 0 ∧ js.pushedA = 0 ∧ js.completedA = 0 ∧
      js.hookRuns = 0 ∧ js.allPushed = false ∧ js.done = false
  | Phase.producing rem, js =>
      js.pushedA + rem = js.plan ∧ js.allPushed = false ∧ js.done = false ∧ js.hookRuns = 0
  | Phase.awaiting, js =>
      js.pushedA = js.plan ∧ js.allPushed = true ∧ js.done = false ∧ js.hookRuns = 0
  | Phase.completing, js =>
      js.pushedA = js.plan ∧ js.allPushed = true ∧ js.done = false ∧ js.hookRuns = 1 ∧
      js.counter = 0
  | Phase.finished, js =>
      js.pushedA = js.plan ∧ js.allPushed = true ∧ js.done = true ∧ js.hookRuns = 1 ∧
      js.counter = 0

/-- Per-phase job invariant: how the two flags, the ghost hook counter and
the per-activation push count relate to the driver's progress. -/
def phaseInv (js : JobState) : Prop :=
  phaseCond js.phase js

/-- Full invariant of one job object: the atomic counter equals queued plus
in-flight tasks of this job, pushes split into outstanding and completed,
and the phase relations hold. -/
def jobInv (q : List Nat) (j : Nat) (js : JobState) : Prop :=
  js.counter = q.count j + js.inFlight ∧
  js.pushedA = js.counter + js.completedA ∧
  phaseInv js

/-- Global state invariant: bounded queue occupancy, no job at the null
address, every queued task owned by a live job, and every live job
satisfying its job invariant. -/
def StateInv (s : EState) : Prop :=
  (s.maxTasks ≠ 0 → s.queue.length ≤ s.maxTasks) ∧
  findJob 0 s.jobs = none ∧
  (∀ i, i ∈ s.queue → ∃ js, findJob i s.jobs = some js) ∧
  (∀ i js, findJob i s.jobs = some js → jobInv s.queue i js)

/-- Concrete run used by the witnesses: one worker thread (task_threads = 1),
unbounded queue, and one client job with handle 1 whose production step
pushes exactly one task.  The jsX / stX definitions below are the states of
that run after each atomic action. -/
def jsIdle1 : JobState :=
  { plan := 1, counter := 0, inFlight := 0, allPushed := false, done := false,
    hookRuns := 0, pushedA := 0, completedA := 0, phase := Phase.idle }

/-- Engine state right after the constructor: one worker, empty queue. -/
def st0 : EState :=
  { maxTasks := 0, workers := 1, queue := [], jobs := [], registry := [], joined := 0 }

/-- Job 1 has been constructed by the client but not submitted. -/
def stA : EState :=
  { maxTasks := 0, workers := 1, queue := [], jobs := [(1, jsIdle1)], registry := [],
    joined := 0 }

/-- Job 1 after push_job: registered, driver started, production not begun. -/
def jsProd1 : JobState :=
  { plan := 1, counter := 0, inFlight := 0, allPushed := false, done := false,
    hookRuns := 0, pushedA := 0, completedA := 0, phase := Phase.producing 1 }

def st1 : EState :=
  { maxTasks := 0, workers := 1, queue := [], jobs := [(1, jsProd1)], registry := [1],
    joined := 0 }

/-- Job 1 after its production step pushed its one task. -/
def js2 : JobState :=
  { plan := 1, counter := 1, inFlight := 0, allPushed := false, done := false,
    hookRuns := 0, pushedA := 1, completedA := 0, phase := Phase.producing 0 }

def st2 : EState :=
  { maxTasks := 0, workers := 1, queue := [1], jobs := [(1, js2)], registry := [1],
    joined := 0 }

/-- Job 1 after set_all_tasks_pushed: the driver enters its counter wait. -/
def js3 : JobState :=
  { plan := 1, counter := 1, inFlight := 0, allPushed := true, done := false,
    hookRuns := 0, pushedA := 1, completedA := 0, phase := Phase.awaiting }

def st3 : EState :=
  { maxTasks := 0, workers := 1, queue := [1], jobs := [(1, js3)], registry := [1],
    joined := 0 }

/-- Job 1 after the worker popped the task: the queue is empty but the task
is still executing. -/
def js4 : JobState :=
  { plan := 1, counter := 1, inFlight := 1, allPushed := true, done := false,
    hookRuns := 0, pushedA := 1, completedA := 0, phase := Phase.awaiting }

def st4 : EState :=
  { maxTasks := 0, workers := 1, queue := [], jobs := [(1, js4)], registry := [1],
    joined := 0 }

/-- Job 1 after the worker finished the task and decremented the counter. -/
def js5 : JobState :=
  { plan := 1, counter := 0, inFlight := 0, allPushed := true, done := false,
    hookRuns := 0, pushedA := 1, completedA := 1, phase := Phase.awaiting }

def st5 : EState :=
  { maxTasks := 0, workers := 1, queue := [], jobs := [(1, js5)], registry := [1],
    joined := 0 }

/-- Job 1 after the driver woke and ran process_after_done. -/
def js6 : JobState :=
  { plan := 1, counter := 0, inFlight := 0, allPushed := true, done := false,
    hookRuns := 1, pushedA := 1, completedA := 1, phase := Phase.completing }

def st6 : EState :=
  { maxTasks := 0, workers := 1, queue := [], jobs := [(1, js6)], registry := [1],
    joined := 0 }

/-- Job 1 after the driver set the done flag. -/
def js7 : JobState :=
  { plan := 1, counter := 0, inFlight := 0, allPushed := true, done := true,
    hookRuns := 1, pushedA := 1, completedA := 1, phase := Phase.finished }

def st7 : EState :=
  { maxTasks := 0, workers := 1, queue := [], jobs := [(1, js7)], registry := [1],
    joined := 0 }

/-- The state st3 after pop_job extracted job 1 from the registry while the
job is still mid-activation: the handle is now unknown to the registry but
the object is alive and not done. -/
def st3p : EState :=
  { maxTasks := 0, workers := 1, queue := [1], jobs := [(1, js3)], registry := [],
    joined := 0 }

theorem findJob_updJob_self (j : Nat) (f : JobState → JobState) (l : List (Nat × JobState)) :
    findJob j (updJob j f l) = (findJob j l).map f := by
  induction l with
  | nil => rfl
  | cons p t ih =>
    by_cases hp : p.1 = j
    · simp [updJob, findJob, hp]
    · simp [updJob, findJob, hp, ih]

theorem findJob_updJob_ne (i j : Nat) (f : JobState → JobState) (l : List (Nat × JobState))
    (h : i ≠ j) : findJob i (updJob j f l) = findJob i l := by
  induction l with
  | nil => rfl
  | cons p t ih =>
    have hji : j ≠ i := fun hh => h hh.symm
    by_cases hp : p.1 = j
    · simp [updJob, findJob, hp, hji, ih]
    · by_cases hq : p.1 = i
      · simp [updJob, findJob, hp, hq, h, hji]
      · simp [updJob, findJob, hp, hq, ih]

theorem findJob_append_some (i : Nat) (l l2 : List (Nat × JobState)) (js : JobState)
    (h : findJob i l = some js) : findJob i (l ++ l2) = some js := by
  induction l with
  | nil => simp [findJob] at h
  | cons p t ih =>
    by_cases hp : p.1 = i
    · simp [findJob, hp] at h ⊢; exact h
    · simp [findJob, hp] at h ⊢; exact ih h

theorem findJob_append_none (i k : Nat) (l : List (Nat × JobState)) (x : JobState)
    (h : findJob i l = none) :
    findJob i (l ++ [(k, x)]) = if k = i then some x else none := by
  induction l with
  | nil => simp [findJob]
  | cons p t ih =>
    by_cases hp : p.1 = i
    · simp [findJob, hp] at h
    · simp [findJob, hp] at h ⊢; exact ih h

theorem findJob_map (j : Nat) (f : JobState → JobState) (l : List (Nat × JobState)) :
    findJob j (l.map (fun p => (p.1, f p.2))) = (findJob j l).map f := by
  induction l with
  | nil => rfl
  | cons p t ih =>
    by_cases hp : p.1 = j
    · simp [findJob, hp]
    · simp [findJob, hp, ih]

theorem jobInv_of_count_eq (q q2 : List Nat) (i : Nat) (js : JobState)
    (hc : q2.count i = q.count i) (h : jobInv q i js) : jobInv q2 i js := by
  obtain ⟨e1, e2, e3⟩ := h
  exact ⟨by rw [hc]; exact e1, e2, e3⟩

theorem phaseInv_eq (js : JobState) (p : Phase) (h : js.phase = p) :
    phaseInv js = phaseCond p js := by
  unfold phaseInv; rw [h]

theorem phaseInv_intro (js : JobState) (p : Phase) (h : js.phase = p)
    (hc : phaseCond p js) : phaseInv js := by
  unfold phaseInv; rw [h]; exact hc

theorem findJob_some_ne_zero (l : List (Nat × JobState)) (h0 : findJob 0 l = none)
    (j : Nat) (js : JobState) (hj : findJob j l = some js) : j ≠ 0 := by
  intro he; rw [he, h0] at hj; exact Option.noConfusion hj

theorem stateInv_step (s t : EState) (h : StateInv s) (hst : Step s t) : StateInv t := by
  obtain ⟨h1, h2, h3, h4⟩ := h
  cases hst with
  | push j rem js hj hp hcap =>
    have hj0 : j ≠ 0 := findJob_some_ne_zero s.jobs h2 j js hj
    have hcnt : ∀ i : Nat, List.count i (s.queue ++ [j]) =
        List.count i s.queue + (if j = i then 1 else 0) := by
      intro i; rw [List.count_append, List.count_singleton']
    refine ⟨?_, ?_, ?_, ?_⟩
    · intro hm
      rcases hcap with h0 | hlt
      · exact absurd h0 hm
      · show (s.queue ++ [j]).length ≤ s.maxTasks
        rw [List.length_append, List.length_singleton]
        omega
    · rw [findJob_updJob_ne 0 j _ _ (fun hh => hj0 hh.symm)]; exact h2
    · intro i hi
      rcases List.mem_append.mp hi with hqm | hsm
      · obtain ⟨jsi, hf⟩ := h3 i hqm
        by_cases hij : i = j
        · subst hij; exact ⟨_, by rw [findJob_updJob_self, hj]; rfl⟩
        · exact ⟨jsi, by rw [findJob_updJob_ne _ _ _ _ hij]; exact hf⟩
      · have hm2 : i = j := List.mem_singleton.mp hsm
        subst hm2
        exact ⟨_, by rw [findJob_updJob_self, hj]; rfl⟩
    · intro i jsi hfind
      by_cases hij : i = j
      · subst hij
        rw [findJob_updJob_self, hj] at hfind
        obtain ⟨e1, e2, e3⟩ := h4 i js hj
        have hji : jsi = _ := (Option.some.inj hfind).symm
        subst hji
        rw [phaseInv_eq js _ hp] at e3
        simp only [phaseCond] at e3
        obtain ⟨f1, f2, f3, f4⟩ := e3
        refine ⟨?_, ?_, ?_⟩
        · show js.counter + 1 = List.count i (s.queue ++ [i]) + js.inFlight
          rw [hcnt i, if_pos rfl]; omega
        · show js.pushedA + 1 = js.counter + 1 + js.completedA
          omega
        · refine phaseInv_intro _ (Phase.producing rem) rfl ?_
          exact ⟨by show js.pushedA + 1 + rem = js.plan; omega, f2, f3, f4⟩
      · rw [findJob_updJob_ne _ _ _ _ hij] at hfind
        refine jobInv_of_count_eq s.queue _ i jsi ?_ (h4 i jsi hfind)
        rw [hcnt i, if_neg (fun hh => hij hh.symm)]
        omega
  | endProduce j js hj hp =>
    have hj0 : j ≠ 0 := findJob_some_ne_zero s.jobs h2 j js hj
    refine ⟨h1, ?_, ?_, ?_⟩
    · rw [findJob_updJob_ne 0 j _ _ (fun hh => hj0 hh.symm)]; exact h2
    · intro i hi
      obtain ⟨jsi, hf⟩ := h3 i hi
      by_cases hij : i = j
      · subst hij; exact ⟨_, by rw [findJob_updJob_self, hj]; rfl⟩
      · exact ⟨jsi, by rw [findJob_updJob_ne _ _ _ _ hij]; exact hf⟩
    · intro i jsi hfind
      by_cases hij : i = j
      · subst hij
        rw [findJob_updJob_self, hj] at hfind
        obtain ⟨e1, e2, e3⟩ := h4 i js hj
        have hji : jsi = _ := (Option.some.inj hfind).symm
        subst hji
        rw [phaseInv_eq js _ hp] at e3
        simp only [phaseCond] at e3
        obtain ⟨f1, f2, f3, f4⟩ := e3
        refine ⟨e1, e2, ?_⟩
        refine phaseInv_intro _ Phase.awaiting rfl ?_
        exact ⟨by show js.pushedA = js.plan; omega, rfl, f3, f4⟩
      · rw [findJob_updJob_ne _ _ _ _ hij] at hfind
        exact h4 i jsi hfind
  | pop j rest hq hj0 hw =>
    obtain ⟨js, hj⟩ := h3 j (by rw [hq]; exact List.mem_cons_self j rest)
    have hcnt : ∀ i : Nat, List.count i s.queue =
        List.count i rest + (if j = i then 1 else 0) := by
      intro i; rw [hq, List.count_cons]
      simp only [beq_iff_eq]
    refine ⟨?_, ?_, ?_, ?_⟩
    · intro hm
      have h5 := h1 hm
      rw [hq] at h5
      simp only [List.length_cons] at h5
      show rest.length ≤ s.maxTasks
      omega
    · rw [findJob_updJob_ne 0 j _ _ (fun hh => hj0 hh.symm)]; exact h2
    · intro i hi
      have hiq : i ∈ s.queue := by rw [hq]; exact List.mem_cons_of_mem j hi
      obtain ⟨jsi, hf⟩ := h3 i hiq
      by_cases hij : i = j
      · subst hij; exact ⟨_, by rw [findJob_updJob_self, hj]; rfl⟩
      · exact ⟨jsi, by rw [findJob_updJob_ne _ _ _ _ hij]; exact hf⟩
    · intro i jsi hfind
      by_cases hij : i = j
      · subst hij
        rw [findJob_updJob_self, hj] at hfind
        obtain ⟨e1, e2, e3⟩ := h4 i js hj
        have hji : jsi = _ := (Option.some.inj hfind).symm
        subst hji
        have hc1 : List.count i s.queue = List.count i rest + 1 := by
          rw [hcnt i, if_pos rfl]
        cases hph : js.phase with
        | idle =>
          rw [phaseInv_eq js _ hph] at e3
          simp only [phaseCond] at e3
          obtain ⟨g1, g2, g3, g4, g5, g6, g7⟩ := e3
          exfalso; omega
        | producing rem =>
          rw [phaseInv_eq js _ hph] at e3
          simp only [phaseCond] at e3
          refine ⟨?_, ?_, ?_⟩
          · show js.counter = List.count i rest + (js.inFlight + 1)
            omega
          · show js.pushedA = js.counter + js.completedA
            exact e2
          · exact phaseInv_intro _ (Phase.producing rem) hph
              ⟨e3.1, e3.2.1, e3.2.2.1, e3.2.2.2⟩
        | awaiting =>
          rw [phaseInv_eq js _ hph] at e3
          simp only [phaseCond] at e3
          refine ⟨?_, ?_, ?_⟩
          · show js.counter = List.count i rest + (js.inFlight + 1)
            omega
          · show js.pushedA = js.counter + js.completedA
            exact e2
          · exact phaseInv_intro _ Phase.awaiting hph
              ⟨e3.1, e3.2.1, e3.2.2.1, e3.2.2.2⟩
        | completing =>
          rw [phaseInv_eq js _ hph] at e3
          simp only [phaseCond] at e3
          obtain ⟨g1, g2, g3, g4, g5⟩ := e3
          exfalso; omega
        | finished =>
          rw [phaseInv_eq js _ hph] at e3
          simp only [phaseCond] at e3
          obtain ⟨g1, g2, g3, g4, g5⟩ := e3
          exfalso; omega
      · rw [findJob_updJob_ne _ _ _ _ hij] at hfind
        refine jobInv_of_count_eq s.queue rest i jsi ?_ (h4 i jsi hfind)
        rw [hcnt i, if_neg (fun hh => hij hh.symm)]
        omega
  | finish j js hj hinf =>
    have hj0 : j ≠ 0 := findJob_some_ne_zero s.jobs h2 j js hj
    refine ⟨h1, ?_, ?_, ?_⟩
    · rw [findJob_updJob_ne 0 j _ _ (fun hh => hj0 hh.symm)]; exact h2
    · intro i hi
      obtain ⟨jsi, hf⟩ := h3 i hi
      by_cases hij : i = j
      · subst hij; exact ⟨_, by rw [findJob_updJob_self, hj]; rfl⟩
      · exact ⟨jsi, by rw [findJob_updJob_ne _ _ _ _ hij]; exact hf⟩
    · intro i jsi hfind
      by_cases hij : i = j
      · subst hij
        rw [findJob_updJob_self, hj] at hfind
        obtain ⟨e1, e2, e3⟩ := h4 i js hj
        have hji : jsi = _ := (Option.some.inj hfind).symm
        subst hji
        cases hph : js.phase with
        | idle =>
          rw [phaseInv_eq js _ hph] at e3
          simp only [phaseCond] at e3
          obtain ⟨g1, g2, g3, g4, g5, g6, g7⟩ := e3
          exfalso; omega
        | producing rem =>
          rw [phaseInv_eq js _ hph] at e3
          simp only [phaseCond] at e3
          refine ⟨?_, ?_, ?_⟩
          · show js.counter - 1 = List.count i s.queue + (js.inFlight - 1)
            omega
          · show js.pushedA = js.counter - 1 + (js.completedA + 1)
            omega
          · exact phaseInv_intro _ (Phase.producing rem) hph
              ⟨e3.1, e3.2.1, e3.2.2.1, e3.2.2.2⟩
        | awaiting =>
          rw [phaseInv_eq js _ hph] at e3
          simp only [phaseCond] at e3
          refine ⟨?_, ?_, ?_⟩
          · show js.counter - 1 = List.count i s.queue + (js.inFlight - 1)
            omega
          · show js.pushedA = js.counter - 1 + (js.completedA + 1)
            omega
          · exact phaseInv_intro _ Phase.awaiting hph
              ⟨e3.1, e3.2.1, e3.2.2.1, e3.2.2.2⟩
        | completing =>
          rw [phaseInv_eq js _ hph] at e3
          simp only [phaseCond] at e3
          obtain ⟨g1, g2, g3, g4, g5⟩ := e3
          exfalso; omega
        | finished =>
          rw [phaseInv_eq js _ hph] at e3
          simp only [phaseCond] at e3
          obtain ⟨g1, g2, g3, g4, g5⟩ := e3
          exfalso; omega
      · rw [findJob_updJob_ne _ _ _ _ hij] at hfind
        exact h4 i jsi hfind
  | runHook j js hj hp hcz =>
    have hj0 : j ≠ 0 := findJob_some_ne_zero s.jobs h2 j js hj
    refine ⟨h1, ?_, ?_, ?_⟩
    · rw [findJob_updJob_ne 0 j _ _ (fun hh => hj0 hh.symm)]; exact h2
    · intro i hi
      obtain ⟨jsi, hf⟩ := h3 i hi
      by_cases hij : i = j
      · subst hij; exact ⟨_, by rw [findJob_updJob_self, hj]; rfl⟩
      · exact ⟨jsi, by rw [findJob_updJob_ne _ _ _ _ hij]; exact hf⟩
    · intro i jsi hfind
      by_cases hij : i = j
      · subst hij
        rw [findJob_updJob_self, hj] at hfind
        obtain ⟨e1, e2, e3⟩ := h4 i js hj
        have hji : jsi = _ := (Option.some.inj hfind).symm
        subst hji
        rw [phaseInv_eq js _ hp] at e3
        simp only [phaseCond] at e3
        obtain ⟨f1, f2, f3, f4⟩ := e3
        refine ⟨e1, e2, ?_⟩
        refine phaseInv_intro _ Phase.completing rfl ?_
        exact ⟨f1, f2, f3, by show js.hookRuns + 1 = 1; omega, hcz⟩
      · rw [findJob_updJob_ne _ _ _ _ hij] at hfind
        exact h4 i jsi hfind
  | setDone j js hj hp =>
    have hj0 : j ≠ 0 := findJob_some_ne_zero s.jobs h2 j js hj
    refine ⟨h1, ?_, ?_, ?_⟩
    · rw [findJob_updJob_ne 0 j _ _ (fun hh => hj0 hh.symm)]; exact h2
    · intro i hi
      obtain ⟨jsi, hf⟩ := h3 i hi
      by_cases hij : i = j
      · subst hij; exact ⟨_, by rw [findJob_updJob_self, hj]; rfl⟩
      · exact ⟨jsi, by rw [findJob_updJob_ne _ _ _ _ hij]; exact hf⟩
    · intro i jsi hfind
      by_cases hij : i = j
      · subst hij
        rw [findJob_updJob_self, hj] at hfind
        obtain ⟨e1, e2, e3⟩ := h4 i js hj
        have hji : jsi = _ := (Option.some.inj hfind).symm
        subst hji
        rw [phaseInv_eq js _ hp] at e3
        simp only [phaseCond] at e3
        obtain ⟨f1, f2, f3, f4, f5⟩ := e3
        refine ⟨e1, e2, ?_⟩
        refine phaseInv_intro _ Phase.finished rfl ?_
        exact ⟨f1, f2, rfl, f4, f5⟩
      · rw [findJob_updJob_ne _ _ _ _ hij] at hfind
        exact h4 i jsi hfind

theorem stateInv_boot (tt mt hc : Nat) : StateInv (initState tt mt hc) := by
  refine ⟨?_, rfl, ?_, ?_⟩
  · intro hm; exact Nat.zero_le _
  · intro i hi; exact absurd hi (List.not_mem_nil i)
  · intro i js hfind; exact Option.noConfusion hfind

theorem stateInv_alloc (s : EState) (j plan : Nat) (h : StateInv s) (hj0 : j ≠ 0)
    (hnew : findJob j s.jobs = none) : StateInv (allocJob s j plan) := by
  obtain ⟨h1, h2, h3, h4⟩ := h
  unfold allocJob
  refine ⟨h1, ?_, ?_, ?_⟩
  · show findJob 0 (s.jobs ++ [(j, _)]) = none
    rw [findJob_append_none 0 j s.jobs _ h2, if_neg hj0]
  · intro i hi
    obtain ⟨jsi, hf⟩ := h3 i hi
    exact ⟨jsi, findJob_append_some i s.jobs _ jsi hf⟩
  · intro i jsi hfind
    cases hold : findJob i s.jobs with
    | some x =>
      rw [findJob_append_some i s.jobs _ x hold] at hfind
      have hx := Option.some.inj hfind
      subst hx
      exact h4 i x hold
    | none =>
      rw [findJob_append_none i j s.jobs _ hold] at hfind
      by_cases hji : j = i
      · rw [if_pos hji] at hfind
        subst hji
        cases hfind
        have hnq : j ∉ s.queue := by
          intro hm
          obtain ⟨x, hx⟩ := h3 j hm
          rw [hx] at hnew
          exact Option.noConfusion hnew
        refine ⟨?_, rfl, ?_⟩
        · show (0 : Nat) = List.count j s.queue + 0
          rw [List.count_eq_zero.mpr hnq]
        · exact phaseInv_intro _ Phase.idle rfl ⟨rfl, rfl, rfl, rfl, rfl, rfl, rfl⟩
      · rw [if_neg hji] at hfind
        exact Option.noConfusion hfind

theorem stateInv_push_job (s : EState) (j : Nat) (js : JobState) (h : StateInv s)
    (hj : findJob j s.jobs = some js) (hidle : js.phase = Phase.idle) :
    StateInv (push_job s j).2 := by
  obtain ⟨h1, h2, h3, h4⟩ := h
  unfold push_job
  split
  · exact ⟨h1, h2, h3, h4⟩
  · have hj0 : j ≠ 0 := findJob_some_ne_zero s.jobs h2 j js hj
    refine ⟨h1, ?_, ?_, ?_⟩
    · show findJob 0 (updJob j startDriver s.jobs) = none
      rw [findJob_updJob_ne 0 j _ _ (fun hh => hj0 hh.symm)]; exact h2
    · intro i hi
      obtain ⟨jsi, hf⟩ := h3 i hi
      by_cases hij : i = j
      · subst hij; exact ⟨_, by rw [findJob_updJob_self, hj]; rfl⟩
      · exact ⟨jsi, by rw [findJob_updJob_ne _ _ _ _ hij]; exact hf⟩
    · intro i jsi hfind
      by_cases hij : i = j
      · subst hij
        rw [findJob_updJob_self, hj] at hfind
        obtain ⟨e1, e2, e3⟩ := h4 i js hj
        have hji : jsi = _ := (Option.some.inj hfind).symm
        subst hji
        rw [phaseInv_eq js _ hidle] at e3
        simp only [phaseCond] at e3
        obtain ⟨g1, g2, g3, g4, g5, g6, g7⟩ := e3
        refine ⟨?_, ?_, ?_⟩
        · show js.counter = List.count i s.queue + js.inFlight
          exact e1
        · show js.pushedA = js.counter + js.completedA
          exact e2
        · refine phaseInv_intro _ (Phase.producing js.plan) rfl ?_
          exact ⟨by show js.pushedA + js.plan = js.plan; omega, g6, g7, g5⟩
      · rw [findJob_updJob_ne _ _ _ _ hij] at hfind
        exact h4 i jsi hfind

theorem stateInv_restart (s : EState) (j : Nat) (js : JobState) (h : StateInv s)
    (hj : findJob j s.jobs = some js) (hdone : js.done = true) :
    StateInv (restartApply s j) := by
  obtain ⟨h1, h2, h3, h4⟩ := h
  have hj0 : j ≠ 0 := findJob_some_ne_zero s.jobs h2 j js hj
  obtain ⟨e1, e2, e3⟩ := h4 j js hj
  have hph : js.phase = Phase.finished := by
    cases hph : js.phase with
    | idle =>
      rw [phaseInv_eq js _ hph] at e3
      simp only [phaseCond] at e3
      obtain ⟨g1, g2, g3, g4, g5, g6, g7⟩ := e3
      rw [hdone] at g7; exact absurd g7 (by decide)
    | producing rem =>
      rw [phaseInv_eq js _ hph] at e3
      simp only [phaseCond] at e3
      obtain ⟨g1, g2, g3, g4⟩ := e3
      rw [hdone] at g3; exact absurd g3 (by decide)
    | awaiting =>
      rw [phaseInv_eq js _ hph] at e3
      simp only [phaseCond] at e3
      obtain ⟨g1, g2, g3, g4⟩ := e3
      rw [hdone] at g3; exact absurd g3 (by decide)
    | completing =>
      rw [phaseInv_eq js _ hph] at e3
      simp only [phaseCond] at e3
      obtain ⟨g1, g2, g3, g4, g5⟩ := e3
      rw [hdone] at g3; exact absurd g3 (by decide)
    | finished => rfl
  rw [phaseInv_eq js _ hph] at e3
  simp only [phaseCond] at e3
  obtain ⟨g1, g2, g3, g4, g5⟩ := e3
  unfold restartApply
  refine ⟨h1, ?_, ?_, ?_⟩
  · show findJob 0 (updJob j _ s.jobs) = none
    rw [findJob_updJob_ne 0 j _ _ (fun hh => hj0 hh.symm)]; exact h2
  · intro i hi
    obtain ⟨jsi, hf⟩ := h3 i hi
    by_cases hij : i = j
    · subst hij; exact ⟨_, by rw [findJob_updJob_self, hj]; rfl⟩
    · exact ⟨jsi, by rw [findJob_updJob_ne _ _ _ _ hij]; exact hf⟩
  · intro i jsi hfind
    by_cases hij : i = j
    · subst hij
      rw [findJob_updJob_self, hj] at hfind
      have hji : jsi = _ := (Option.some.inj hfind).symm
      subst hji
      refine ⟨?_, ?_, ?_⟩
      · show js.counter = List.count i s.queue + js.inFlight
        exact e1
      · show (0 : Nat) = js.counter + 0
        omega
      · refine phaseInv_intro _ (Phase.producing js.plan) rfl ?_
        exact ⟨by show (0 : Nat) + js.plan = js.plan; omega, rfl, rfl, rfl⟩
    · rw [findJob_updJob_ne _ _ _ _ hij] at hfind
      exact h4 i jsi hfind

theorem stateInv_pop_job (s : EState) (j : Nat) (h : StateInv s) :
    StateInv (pop_job s j).2 := by
  unfold pop_job
  split
  · exact h
  · exact h

theorem reachable_inv (s : EState) (h : Reachable s) : StateInv s := by
  induction h with
  | boot tt mt hc => exact stateInv_boot tt mt hc
  | alloc s j plan hr hj0 hnew ih => exact stateInv_alloc s j plan ih hj0 hnew
  | step s t hr hst ih => exact stateInv_step s t ih hst
  | pushJ s j js hr hj hidle ih => exact stateInv_push_job s j js ih hj hidle
  | restart s j js hr hj hdone ih => exact stateInv_restart s j js ih hj hdone
  | popJ s j hr ih => exact stateInv_pop_job s j ih

theorem reachable_of_steps (t u : EState) (ht : Reachable t)
    (h : Relation.ReflTransGen Step t u) : Reachable u := by
  induction h with
  | refl => exact ht
  | tail h1 h2 ih => exact Reachable.step _ _ ih h2

theorem reach_st0 : Reachable st0 := by
  have h : initState 1 0 4 = st0 := by decide
  exact h ▸ Reachable.boot 1 0 4

theorem reach_stA : Reachable stA := by
  have h : allocJob st0 1 1 = stA := by decide
  exact h ▸ Reachable.alloc st0 1 1 reach_st0 (by decide) (by decide)

theorem reach_st1 : Reachable st1 := by
  have h : (push_job stA 1).2 = st1 := by decide
  exact h ▸ Reachable.pushJ stA 1 jsIdle1 reach_stA (by decide) (by decide)

theorem reach_st2 : Reachable st2 :=
  Reachable.step st1 st2 reach_st1
    (Step.push st1 1 0 jsProd1 (by decide) (by decide) (Or.inl (by decide)))

theorem reach_st3 : Reachable st3 :=
  Reachable.step st2 st3 reach_st2
    (Step.endProduce st2 1 js2 (by decide) (by decide))

theorem reach_st4 : Reachable st4 :=
  Reachable.step st3 st4 reach_st3
    (Step.pop st3 1 [] (by decide) (by decide) (by decide))

theorem reach_st5 : Reachable st5 :=
  Reachable.step st4 st5 reach_st4
    (Step.finish st4 1 js4 (by decide) (by decide))

theorem reach_st6 : Reachable st6 :=
  Reachable.step st5 st6 reach_st5
    (Step.runHook st5 1 js5 (by decide) (by decide) (by decide))

theorem reach_st7 : Reachable st7 :=
  Reachable.step st6 st7 reach_st6
    (Step.setDone st6 1 js6 (by decide) (by decide))

theorem reach_st3p : Reachable st3p := by
  have h : (pop_job st3 1).2 = st3p := by decide
  exact h ▸ Reachable.popJ st3 1 reach_st3

theorem done_phase_finished (js : JobState) (e3 : phaseInv js) (hd : js.done = true) :
    js.phase = Phase.finished := by
  cases hph : js.phase with
  | idle =>
    rw [phaseInv_eq js _ hph] at e3
    simp only [phaseCond] at e3
    obtain ⟨g1, g2, g3, g4, g5, g6, g7⟩ := e3
    rw [hd] at g7; exact absurd g7 (by decide)
  | producing rem =>
    rw [phaseInv_eq js _ hph] at e3
    simp only [phaseCond] at e3
    obtain ⟨g1, g2, g3, g4⟩ := e3
    rw [hd] at g3; exact absurd g3 (by decide)
  | awaiting =>
    rw [phaseInv_eq js _ hph] at e3
    simp only [phaseCond] at e3
    obtain ⟨g1, g2, g3, g4⟩ := e3
    rw [hd] at g3; exact absurd g3 (by decide)
  | completing =>
    rw [phaseInv_eq js _ hph] at e3
    simp only [phaseCond] at e3
    obtain ⟨g1, g2, g3, g4, g5⟩ := e3
    rw [hd] at g3; exact absurd g3 (by decide)
  | finished => rfl

/-- In any reachable state, a job whose done flag is observable has a zero
counter, has run its completion hook exactly once, and has completed exactly
as many task executions as its production step pushed. -/
theorem reachable_done_complete (u : EState) (j : Nat) (js : JobState) (hru : Reachable u)
    (hj : findJob j u.jobs = some js) (hd : js.done = true) :
    js.counter = 0 ∧ js.hookRuns = 1 ∧ js.completedA = js.plan ∧ js.allPushed = true := by
  obtain ⟨h1, h2, h3, h4⟩ := reachable_inv u hru
  obtain ⟨e1, e2, e3⟩ := h4 j js hj
  have hph : js.phase = Phase.finished := done_phase_finished js e3 hd
  rw [phaseInv_eq js _ hph] at e3
  simp only [phaseCond] at e3
  obtain ⟨g1, g2, g3, g4, g5⟩ := e3
  exact ⟨g5, g4, by omega, g2⟩

/-- After all worker threads are gone, a job stuck in its counter wait with a
positive counter and no in-flight task is frozen: no system step can change
its counter, run its hook, or set its done flag. -/
theorem steps_preserve_orphan (j k : Nat) (t u : EState)
    (h : Relation.ReflTransGen Step t u)
    (hw : t.workers = 0) (hkpos : 0 < k)
    (hjt : ∃ jt, findJob j t.jobs = some jt ∧ jt.counter = k ∧ jt.inFlight = 0 ∧
      jt.done = false ∧ jt.hookRuns = 0 ∧ jt.phase = Phase.awaiting) :
    u.workers = 0 ∧ ∃ ju, findJob j u.jobs = some ju ∧ ju.counter = k ∧ ju.inFlight = 0 ∧
      ju.done = false ∧ ju.hookRuns = 0 ∧ ju.phase = Phase.awaiting := by
  induction h with
  | refl => exact ⟨hw, hjt⟩
  | tail hsteps hstep ih =>
    obtain ⟨hw2, ju, hju, hc, hf, hd, hh, hp⟩ := ih
    cases hstep with
    | push j2 rem js2 hj2 hp2 hcap =>
      by_cases hij : j2 = j
      · subst hij
        rw [hju] at hj2
        have he : ju = js2 := Option.some.inj hj2
        rw [← he, hp] at hp2
        exact Phase.noConfusion hp2
      · refine ⟨hw2, ju, ?_, hc, hf, hd, hh, hp⟩
        show findJob j (updJob j2 _ _) = some ju
        rw [findJob_updJob_ne j j2 _ _ (fun hh2 => hij hh2.symm)]
        exact hju
    | endProduce j2 js2 hj2 hp2 =>
      by_cases hij : j2 = j
      · subst hij
        rw [hju] at hj2
        have he : ju = js2 := Option.some.inj hj2
        rw [← he, hp] at hp2
        exact Phase.noConfusion hp2
      · refine ⟨hw2, ju, ?_, hc, hf, hd, hh, hp⟩
        show findJob j (updJob j2 _ _) = some ju
        rw [findJob_updJob_ne j j2 _ _ (fun hh2 => hij hh2.symm)]
        exact hju
    | pop j2 rest hq hj02 hw3 =>
      rw [hw2] at hw3
      exact absurd hw3 (Nat.not_lt_zero _)
    | finish j2 js2 hj2 hinf =>
      by_cases hij : j2 = j
      · subst hij
        rw [hju] at hj2
        have he : ju = js2 := Option.some.inj hj2
        rw [← he, hf] at hinf
        exact absurd hinf (Nat.lt_irrefl 0)
      · refine ⟨hw2, ju, ?_, hc, hf, hd, hh, hp⟩
        show findJob j (updJob j2 _ _) = some ju
        rw [findJob_updJob_ne j j2 _ _ (fun hh2 => hij hh2.symm)]
        exact hju
    | runHook j2 js2 hj2 hp2 hcz =>
      by_cases hij : j2 = j
      · subst hij
        rw [hju] at hj2
        have he : ju = js2 := Option.some.inj hj2
        rw [← he, hc] at hcz
        exact absurd hcz (by omega)
      · refine ⟨hw2, ju, ?_, hc, hf, hd, hh, hp⟩
        show findJob j (updJob j2 _ _) = some ju
        rw [findJob_updJob_ne j j2 _ _ (fun hh2 => hij hh2.symm)]
        exact hju
    | setDone j2 js2 hj2 hp2 =>
      by_cases hij : j2 = j
      · subst hij
        rw [hju] at hj2
        have he : ju = js2 := Option.some.inj hj2
        rw [← he, hp] at hp2
        exact Phase.noConfusion hp2
      · refine ⟨hw2, ju, ?_, hc, hf, hd, hh, hp⟩
        show findJob j (updJob j2 _ _) = some ju
        rw [findJob_updJob_ne j j2 _ _ (fun hh2 => hij hh2.symm)]
        exact hju

theorem map_finish_idem (l : List (Nat × JobState)) :
    (l.map (fun p => (p.1, finish_in_flight p.2))).map (fun p => (p.1, finish_in_flight p.2)) =
    l.map (fun p => (p.1, finish_in_flight p.2)) := by
  induction l with
  | nil => rfl
  | cons p t ih =>
    simp only [List.map_cons]
    rw [ih]
    rfl

/-- C1: for every job whose production step pushes N tasks before the
all-submitted signal, wait_job_done can return only once the done flag is
set, and in any reachable state where the done flag is observable exactly N
task executions of that activation have completed, the completion hook
process_after_done has run exactly once (never zero times, never twice), and
it finished before the done flag became observable (the hook count is
already 1 whenever done is readable). -/
theorem c1_wait_job_done_exact_completion (s : EState) (j N : Nat) (js : JobState)
    (hr : Reachable s) (h0 : j ≠ 0) (hj : findJob j s.jobs = some js) (hN : js.plan = N)
    (hret : wait_returns_now s j = some true) :
    js.done = true ∧ js.completedA = N ∧ js.hookRuns = 1 ∧ js.counter = 0 := by
  have hdone : js.done = true := by
    unfold wait_returns_now at hret
    rw [if_neg h0, hj] at hret
    exact Option.some.inj hret
  obtain ⟨hcz, hh, hcomp, hap⟩ := reachable_done_complete s j js hr hj hdone
  exact ⟨hdone, by rw [← hN]; exact hcomp, hh, hcz⟩

/-- Witness for C1 at the end state of the concrete one-task run. -/
theorem c1_witness :
    js7.done = true ∧ js7.completedA = 1 ∧ js7.hookRuns = 1 ∧ js7.counter = 0 :=
  c1_wait_job_done_exact_completion st7 1 1 js7 reach_st7 (by decide) (by decide)
    (by decide) (by decide)

/-- C2: the queue-scan completion check of the src/MultiThreadTask.h variant
is blind to dequeued-but-executing tasks: st4 is reachable, job 1 has one
task popped and still executing (pushed one, completed zero), and there the
scan-based check reports done (true) while the counter-based check reports
work in flight (false); the two completion checks are not equivalent, and
only the counter-based one reflects the unfinished execution. -/
theorem c2_scan_vs_counter_check_divergence :
    Reachable st4 ∧
    check_job_is_done_scan st4 1 = true ∧
    is_job_tasks_queue_empty st4 1 = true ∧
    check_job_is_done st4 1 = some false ∧
    findJob 1 st4.jobs = some js4 ∧ js4.pushedA = 1 ∧ js4.completedA = 0 ∧
    js4.inFlight = 1 ∧ js4.done = false :=
  ⟨reach_st4, by decide, by decide, by decide, by decide, by decide, by decide,
    by decide, by decide⟩

/-- C3 counterexample: push_job of an already registered handle is NOT
distinguishable from success by its result: in the reachable state st1 where
handle 1 is registered, the duplicate call returns the very value (the job
pointer 1, non-null) that the original successful call returned, so no
duplicate-activation failure is reported; the state is unchanged. -/
theorem c3_counterexample_duplicate_return_equals_success :
    Reachable st1 ∧ st1.registry.contains 1 = true ∧
    (push_job stA 1).1 = 1 ∧ (push_job st1 1).1 = 1 ∧ (push_job st1 1).1 ≠ 0 ∧
    (push_job st1 1).2 = st1 :=
  ⟨reach_st1, by decide, by decide, by decide, by decide, by decide⟩

/-- C3 amended: submitting a job whose handle is already registered performs
no registration: the whole engine state (registry contents, job heap,
threads) is unchanged, so no driver is started and the caller keeps
ownership of the unregistered job object; however the call returns the job's
own pointer, the same value a successful submission returns, so the
rejection is not distinguishable from success by the return value. -/
theorem c3_amended_duplicate_push_state_unchanged (s : EState) (j : Nat)
    (h : s.registry.contains j = true) : push_job s j = (j, s) := by
  unfold push_job
  rw [h]
  rfl

/-- Witness for the amended C3 at the concrete duplicate submission. -/
theorem c3_amended_witness : push_job st1 1 = (1, st1) :=
  c3_amended_duplicate_push_state_unchanged st1 1 (by decide)

/-- C4: with a nonzero capacity C the queue never holds more than C tasks in
any reachable state; a push at capacity is blocked (push_would_block) and no
step from a full queue grows it (a worker pop shrinks it, freeing the slot
the blocked push then takes); with capacity 0 a push never blocks on
capacity. -/
theorem c4_capacity_invariant (s : EState) (hr : Reachable s) :
    (s.maxTasks ≠ 0 → s.queue.length ≤ s.maxTasks) ∧
    (s.maxTasks = 0 → push_would_block s = false) ∧
    (push_would_block s = true →
      ∀ t, Step s t → t.queue.length < s.queue.length ∨ t.queue = s.queue) := by
  obtain ⟨h1, h2, h3, h4⟩ := reachable_inv s hr
  refine ⟨h1, ?_, ?_⟩
  · intro hm
    unfold push_would_block
    rw [hm]
    rfl
  · intro hb t hst
    have hb2 : s.maxTasks ≠ 0 ∧ s.queue.length = s.maxTasks := by
      unfold push_would_block at hb
      rw [Bool.and_eq_true] at hb
      obtain ⟨b1, b2⟩ := hb
      exact ⟨by simpa using b1, by simpa using b2⟩
    obtain ⟨hbm, hbl⟩ := hb2
    cases hst with
    | push j rem js hj hp hcap =>
      exfalso
      rcases hcap with hm0 | hlt
      · exact hbm hm0
      · omega
    | endProduce j js hj hp => right; rfl
    | pop j rest hq hj0 hw =>
      left
      rw [hq]
      exact Nat.lt_succ_self _
    | finish j js hj hinf => right; rfl
    | runHook j js hj hp hcz => right; rfl
    | setDone j js hj hp => right; rfl

/-- Witness for C4 at a freshly initialized engine with capacity 3. -/
theorem c4_witness :
    ((initState 1 3 4).maxTasks ≠ 0 →
      (initState 1 3 4).queue.length ≤ (initState 1 3 4).maxTasks) ∧
    ((initState 1 3 4).maxTasks = 0 → push_would_block (initState 1 3 4) = false) ∧
    (push_would_block (initState 1 3 4) = true →
      ∀ t, Step (initState 1 3 4) t →
        t.queue.length < (initState 1 3 4).queue.length ∨
        t.queue = (initState 1 3 4).queue) :=
  c4_capacity_invariant (initState 1 3 4) (Reachable.boot 1 3 4)

/-- C5: restart_job on a completed job leaves its outstanding counter at 0
(reset does not write the counter, but a done job's counter is already 0 by
the completion invariant), clears the all-pushed and done flags, and starts
a new driver that re-runs production; a wait_job_done issued right after the
restart does not return on the prior activation (the done flag is false
again), and when it later returns the NEW activation has completed all of
its tasks and run its hook exactly once. -/
theorem c5_restart_done_job (s : EState) (j : Nat) (js : JobState)
    (hr : Reachable s) (h0 : j ≠ 0) (hj : findJob j s.jobs = some js)
    (hdone : js.done = true) :
    restart_job s j = some (restartApply s j) ∧
    findJob j (restartApply s j).jobs = some (startDriver (resetJob js)) ∧
    (startDriver (resetJob js)).counter = 0 ∧
    (startDriver (resetJob js)).allPushed = false ∧
    (startDriver (resetJob js)).done = false ∧
    (startDriver (resetJob js)).phase = Phase.producing js.plan ∧
    wait_returns_now (restartApply s j) j = some false ∧
    (∀ u ju, Relation.ReflTransGen Step (restartApply s j) u →
      findJob j u.jobs = some ju → ju.done = true →
      ju.completedA = ju.plan ∧ ju.hookRuns = 1) := by
  have hcz : js.counter = 0 := (reachable_done_complete s j js hr hj hdone).1
  have hfind : findJob j (restartApply s j).jobs = some (startDriver (resetJob js)) := by
    unfold restartApply
    rw [findJob_updJob_self, hj]
    rfl
  refine ⟨?_, hfind, ?_, rfl, rfl, rfl, ?_, ?_⟩
  · unfold restart_job
    rw [if_neg h0, hj]
    rfl
  · show js.counter = 0
    exact hcz
  · unfold wait_returns_now
    rw [if_neg h0, hfind]
    rfl
  · intro u ju hsteps hju hjd
    have hru : Reachable u :=
      reachable_of_steps (restartApply s j) u (Reachable.restart s j js hr hj hdone) hsteps
    obtain ⟨z1, z2, z3, z4⟩ := reachable_done_complete u j ju hru hju hjd
    exact ⟨z3, z2⟩

/-- Witness for C5 at the completed concrete job. -/
theorem c5_witness :
    restart_job st7 1 = some (restartApply st7 1) ∧
    findJob 1 (restartApply st7 1).jobs = some (startDriver (resetJob js7)) ∧
    (startDriver (resetJob js7)).counter = 0 ∧
    (startDriver (resetJob js7)).allPushed = false ∧
    (startDriver (resetJob js7)).done = false ∧
    (startDriver (resetJob js7)).phase = Phase.producing js7.plan ∧
    wait_returns_now (restartApply st7 1) 1 = some false ∧
    (∀ u ju, Relation.ReflTransGen Step (restartApply st7 1) u →
      findJob 1 u.jobs = some ju → ju.done = true →
      ju.completedA = ju.plan ∧ ju.hookRuns = 1) :=
  c5_restart_done_job st7 1 js7 reach_st7 (by decide) (by decide) (by decide)

/-- C6: terminate clears all pending tasks from the queue, joins every
worker thread exactly once (the ghost join counter grows by exactly the
number of live workers, which drops to 0), and is idempotent: a second call,
such as the implicit one from the destructor, is the identity and performs
zero further joins, so nothing is double-joined and nothing blocks. -/
theorem c6_terminate_idempotent (s : EState) :
    terminate (terminate s) = terminate s ∧
    (terminate s).joined = s.joined + s.workers ∧
    (terminate (terminate s)).joined = (terminate s).joined ∧
    (terminate s).workers = 0 ∧
    (terminate s).queue = [] := by
  refine ⟨?_, rfl, rfl, rfl, rfl⟩
  cases s with
  | mk mt w q jb rg jn =>
    unfold terminate
    simp only [map_finish_idem]
    rfl

/-- C7 counterexample: a non-null handle unknown to the registry is NOT
treated as a benign no-op.  In the reachable state st3p handle 1 has been
extracted from the registry mid-activation; there check_job_is_done returns
false (the claim says a vacuous true), wait_job_done does not return
immediately (the done flag is false), and restart_job dereferences the
handle and mutates the job rather than doing nothing. -/
theorem c7_counterexample_unknown_handle_not_noop :
    Reachable st3p ∧ st3p.registry.contains 1 = false ∧
    check_job_is_done st3p 1 = some false ∧
    wait_returns_now st3p 1 = some false ∧
    restart_job st3p 1 ≠ some st3p :=
  ⟨reach_st3p, by decide, by decide, by decide, by decide⟩

/-- C7 amended: only the NULL handle is special-cased: restart_job is a
no-op, check_job_is_done reports true vacuously and wait_job_done returns
immediately for the null handle; pop_job alone is benign on any handle that
is not registered (it returns empty and leaves the state unchanged).  A
non-null unregistered handle passed to restart/check/wait is dereferenced
and the operation acts on the pointed-to job object. -/
theorem c7_amended_null_handle_benign (s : EState) (j : Nat)
    (hj : s.registry.contains j = false) :
    restart_job s 0 = some s ∧ check_job_is_done s 0 = some true ∧
    wait_returns_now s 0 = some true ∧ pop_job s j = (none, s) := by
  refine ⟨rfl, rfl, rfl, ?_⟩
  unfold pop_job
  rw [hj]
  rfl

/-- Witness for the amended C7 with the never-registered handle 2. -/
theorem c7_amended_witness :
    restart_job st3 0 = some st3 ∧ check_job_is_done st3 0 = some true ∧
    wait_returns_now st3 0 = some true ∧ pop_job st3 2 = (none, st3) :=
  c7_amended_null_handle_benign st3 2 (by decide)

/-- C8: the claim that init always creates at least one worker fails when
hardware parallelism reports 0: with task_threads = 0 and
hardware_concurrency() = 0 the computed signed count is -1 (unsigned 0 - 1
wrapped and converted), the zero-fixup does not fire, and the spawn loop
creates no thread at all; with hardware_concurrency() of 1 or 8 and with an
explicit count the code does meet the claim. -/
theorem c8_zero_hardware_concurrency_spawns_no_worker :
    task_threads_count 0 0 = -1 ∧ (initState 0 0 0).workers = 0 ∧
    task_threads_count 0 1 = 1 ∧ (initState 0 0 1).workers = 1 ∧
    (initState 0 0 8).workers = 7 ∧ (initState 5 0 0).workers = 5 := by
  decide

/-- C9: check_job_is_done on a live non-null handle returns exactly the test
that the outstanding counter is zero, and that does not imply the job is
done: st1 is a reachable state (job just registered, no task pushed yet)
where the check returns true while the done flag that wait_job_done blocks
on is still false. -/
theorem c9_check_is_counter_zero_not_done (s : EState) (j : Nat) (js : JobState)
    (hr : Reachable s) (h0 : j ≠ 0) (hj : findJob j s.jobs = some js) :
    check_job_is_done s j = some (js.counter == 0) ∧
    (∃ u ju, Reachable u ∧ findJob 1 u.jobs = some ju ∧
      check_job_is_done u 1 = some true ∧ ju.done = false ∧
      wait_returns_now u 1 = some false) := by
  refine ⟨?_, st1, jsProd1, reach_st1, by decide, by decide, by decide, by decide⟩
  unfold check_job_is_done
  rw [if_neg h0, hj]
  rfl

/-- Witness for C9 in the state between counter reaching zero and the done
flag being set (the hook has run, done is still false, the check says
true). -/
theorem c9_witness :
    check_job_is_done st6 1 = some (js6.counter == 0) ∧
    (∃ u ju, Reachable u ∧ findJob 1 u.jobs = some ju ∧
      check_job_is_done u 1 = some true ∧ ju.done = false ∧
      wait_returns_now u 1 = some false) :=
  c9_check_is_counter_zero_not_done st6 1 js6 reach_st6 (by decide) (by decide)

/-- C10: terminate discards the queued tasks of a job without decrementing
its counter: a job whose driver is blocked in wait_until_all_tasks_done with
k > 0 tasks still queued has counter k after terminate (its in-flight tasks
are finished by the joining workers, its queued ones are dropped uncounted),
and in every state the system can subsequently reach the counter is still k,
the completion hook has never run and the done flag is never set — the
blocked driver never wakes. -/
theorem c10_terminate_orphans_queued_tasks (s : EState) (j k : Nat) (js : JobState)
    (hr : Reachable s) (hj : findJob j s.jobs = some js)
    (hph : js.phase = Phase.awaiting) (hk : List.count j s.queue = k) (hkpos : 0 < k) :
    findJob j (terminate s).jobs = some (finish_in_flight js) ∧
    (finish_in_flight js).counter = k ∧
    (∀ u, Relation.ReflTransGen Step (terminate s) u →
      ∃ ju, findJob j u.jobs = some ju ∧ ju.counter = k ∧ ju.done = false ∧
        ju.hookRuns = 0 ∧ ju.phase = Phase.awaiting) := by
  obtain ⟨h1, h2, h3, h4⟩ := reachable_inv s hr
  obtain ⟨e1, e2, e3⟩ := h4 j js hj
  rw [phaseInv_eq js _ hph] at e3
  simp only [phaseCond] at e3
  obtain ⟨g1, g2, g3, g4⟩ := e3
  have hfind : findJob j (terminate s).jobs = some (finish_in_flight js) := by
    unfold terminate
    rw [findJob_map, hj]
    rfl
  have hcnt : (finish_in_flight js).counter = k := by
    show js.counter - js.inFlight = k
    omega
  refine ⟨hfind, hcnt, ?_⟩
  intro u hsteps
  have horph := steps_preserve_orphan j k (terminate s) u hsteps rfl hkpos
    ⟨finish_in_flight js, hfind, hcnt, rfl, ?_, ?_, ?_⟩
  · obtain ⟨hw, ju, hju, hc, hf, hd, hh, hp⟩ := horph
    exact ⟨ju, hju, hc, hd, hh, hp⟩
  · show js.done = false
    exact g3
  · show js.hookRuns = 0
    exact g4
  · show js.phase = Phase.awaiting
    exact hph

/-- Witness for C10 at the state where the single task is queued and the
driver is already waiting. -/
theorem c10_witness :
    findJob 1 (terminate st3).jobs = some (finish_in_flight js3) ∧
    (finish_in_flight js3).counter = 1 ∧
    (∀ u, Relation.ReflTransGen Step (terminate st3) u →
      ∃ ju, findJob 1 u.jobs = some ju ∧ ju.counter = 1 ∧ ju.done = false ∧
        ju.hookRuns = 0 ∧ ju.phase = Phase.awaiting) :=
  c10_terminate_orphans_queued_tasks st3 1 1 js3 reach_st3 (by decide) (by decide)
    (by decide) (by decide)

end MultiTaskConveyor
